import Mathlib

/-!
A shallow embedding of the RAFT command-line tool (`src/raft.py`): the
step-insertion engine (`add_step` and its helpers) and the asset loader
(`load_files`, `update_mounts_cfg`), with theorems settling the
specification's claims about them.

Modelling conventions.  Python strings are Lean `String`s, Python lists are
Lean `List`s, a file is its content string and a missing file is `none`.
`sys.exit` and uncaught Python exceptions end a run through an explicit
failure type; the unbounded `while` loop in `add_step`'s transitive
parameter discovery is driven by a fuel parameter, and exhausting the fuel
(`hung`) models divergence of the source loop.  Python's substring
`str.replace` is embedded for non-empty patterns (every pattern the source
passes is a fixed non-empty literal or a step name).
-/

namespace Raft

/-- The characters Python's `str.strip` / `str.rstrip` remove by default. -/
def pyWhitespace : List Char := [' ', '\t', '\n', '\r', '\x0b', '\x0c']

/-- Python `s.rstrip()`. -/
def pyRstrip (s : String) : String :=
  ⟨(s.data.reverse.dropWhile (fun c => pyWhitespace.contains c)).reverse⟩

/-- Python `s.lstrip()`. -/
def pyLstrip (s : String) : String :=
  ⟨s.data.dropWhile (fun c => pyWhitespace.contains c)⟩

/-- Python `s.strip()`. -/
def pyStrip (s : String) : String := pyLstrip (pyRstrip s)

/-- Python `s.strip(c)` for a one-character argument. -/
def pyStripChar (s : String) (c : Char) : String :=
  ⟨((s.data.dropWhile (fun d => d = c)).reverse.dropWhile (fun d => d = c)).reverse⟩

/-- Python `s.lstrip(cs)`: the argument is a set of characters. -/
def pyLstripSet (s : String) (cs : List Char) : String :=
  ⟨s.data.dropWhile (fun c => cs.contains c)⟩

/-- Python `file.readlines()` on a file holding `s`: split after every
newline, keeping the newline; a final piece without a newline is kept. -/
def pyReadlinesAux : List Char → List Char → List String
  | [], acc => if acc.isEmpty then [] else [⟨acc.reverse⟩]
  | c :: cs, acc =>
    if c = '\n' then ⟨(c :: acc).reverse⟩ :: pyReadlinesAux cs []
    else pyReadlinesAux cs (c :: acc)

/-- Python `readlines` over a file content string. -/
def pyReadlines (s : String) : List String := pyReadlinesAux s.data []

/-- Python `lst.index(x)`: index of the first occurrence, `none` when the
source raises `ValueError`. -/
def pyIndex {α : Type} [DecidableEq α] : List α → α → Option Nat
  | [], _ => none
  | y :: ys, x => if y = x then some 0 else (pyIndex ys x).map (fun j => j + 1)

/-- Python `lst[a:b]` for non-negative bounds. -/
def pySlice {α : Type} (l : List α) (a b : Nat) : List α := (l.take b).drop a

/-- Python `lst.insert(i, x)` (clamping `i` to the length, as Python does). -/
def pyInsert {α : Type} (l : List α) (i : Nat) (x : α) : List α :=
  l.take i ++ x :: l.drop i

/-- Python `lst.remove(x)`: drop the first occurrence of `x`. -/
def removeFirst {α : Type} [DecidableEq α] (x : α) : List α → List α
  | [] => []
  | y :: ys => if y = x then ys else y :: removeFirst x ys

/-- Whether `pat` occurs as a contiguous substring (Python `pat in s`). -/
def subOccurs (pat : List Char) : List Char → Bool
  | [] => pat.isEmpty
  | c :: cs => pat.isPrefixOf (c :: cs) || subOccurs pat cs

/-- Python `pat in s` on strings. -/
def containsSub (s pat : String) : Bool := subOccurs pat.data s.data

/-- Python `s.startswith(pre)`. -/
def pyStartsWith (s pre : String) : Bool := pre.data.isPrefixOf s.data

/-- Python `s.endswith(suf)`. -/
def pyEndsWith (s suf : String) : Bool := suf.data.reverse.isPrefixOf s.data.reverse

/-- Python `s.partition(c)[0]` for a one-character separator: the text
before the first occurrence (the whole string when absent). -/
def partBefore (s : String) (c : Char) : String :=
  ⟨s.data.takeWhile (fun x => x ≠ c)⟩

/-- Python `s.partition(c)[2]` for a one-character separator: the text
after the first occurrence (empty when absent). -/
def partAfter (s : String) (c : Char) : String :=
  ⟨(s.data.dropWhile (fun x => x ≠ c)).tail⟩

/-- Python `s.split(c)` for a one-character separator (keeps empty pieces). -/
def pySplitCharAux (c : Char) : List Char → List Char → List String
  | [], acc => [⟨acc.reverse⟩]
  | d :: ds, acc =>
    if d = c then ⟨acc.reverse⟩ :: pySplitCharAux c ds []
    else pySplitCharAux c ds (d :: acc)

/-- Python `s.split(c)` for a one-character separator. -/
def pySplitChar (s : String) (c : Char) : List String := pySplitCharAux c s.data []

/-- Leftmost, non-overlapping replacement of `pat` by `rep`, Python's
`str.replace` for a non-empty pattern.  The fuel argument (instantiated
with the length of the scanned text, an upper bound on the number of
steps) only makes the recursion structural. -/
def listReplaceAux (pat rep : List Char) : Nat → List Char → List Char
  | _, [] => []
  | 0, s => s
  | fuel + 1, c :: cs =>
    if pat ≠ [] ∧ pat.isPrefixOf (c :: cs) then
      rep ++ listReplaceAux pat rep fuel ((c :: cs).drop pat.length)
    else
      c :: listReplaceAux pat rep fuel cs

/-- Python `s.replace(pat, rep)` for a non-empty pattern. -/
def pyReplace (s pat rep : String) : String :=
  ⟨listReplaceAux pat.data rep.data s.data.length s.data⟩

/-- Python `list(dict.fromkeys(l))`: deduplicate keeping first occurrences. -/
def pyDedupAux : List String → List String → List String
  | [], _ => []
  | x :: xs, seen =>
    if seen.contains x then pyDedupAux xs seen else x :: pyDedupAux xs (x :: seen)

/-- Python `list(dict.fromkeys(l))`. -/
def pyDedup (l : List String) : List String := pyDedupAux l []

/-- How a modelled run of a RAFT operation ends: normally, through
`sys.exit` (a non-zero code when the Python argument is `1` or a message
string), through an uncaught Python exception, or — for the embedded
`while` loop only — by exhausting its fuel, which models divergence of
the source loop. -/
inductive Outcome where
  | ok
  | exited (code : Nat) (msg : String)
  | crashed (msg : String)
  | hung
deriving DecidableEq

/-- The failure half of `Outcome`, used inside the `add_step` pipeline. -/
inductive Failure where
  | exited (code : Nat) (msg : String)
  | crashed (msg : String)
  | hung
deriving DecidableEq

/-- Lift a pipeline failure to a run outcome. -/
def Failure.toOutcome : Failure → Outcome
  | .exited c m => .exited c m
  | .crashed m => .crashed m
  | .hung => .hung

/-- A failure terminates the Python process with a non-zero status, except
for divergence, which never terminates it. -/
def Outcome.signalsFailure : Outcome → Prop
  | .ok => False
  | .exited c _ => c ≠ 0
  | .crashed _ => True
  | .hung => False

instance : DecidablePred Outcome.signalsFailure := by
  intro o; cases o <;> simp [Outcome.signalsFailure] <;> infer_instance

/-- First index at or after which `pat` occurs (scanning left to right). -/
def findSubAux (pat : List Char) : List Char → Nat → Option Nat
  | [], i => if pat.isEmpty then some i else none
  | c :: cs, i => if pat.isPrefixOf (c :: cs) then some i else findSubAux pat cs (i + 1)

/-- Index of the last occurrence of the two-character string `a b`. -/
def lastPairIdx (a b : Char) : List Char → Option Nat
  | [] => none
  | c :: cs =>
    match lastPairIdx a b cs with
    | some j => some (j + 1)
    | none => if [a, b].isPrefixOf (c :: cs) then some 0 else none

/-- Length of the match of the regex `(params.*?,|params.*?\)|params.*\?})`
at the head of `s`, if any: Python tries the alternatives in order, the
first two are lazy (nearest `,` resp. `)`), the last is greedy (last
`?}`). -/
def matchParamsAt (s : List Char) : Option Nat :=
  if "params".data.isPrefixOf s then
    let rest := s.drop 6
    match findSubAux [','] rest 0 with
    | some j => some (7 + j)
    | none =>
      match findSubAux [')'] rest 0 with
      | some j => some (7 + j)
      | none =>
        match lastPairIdx '?' '\x7d' rest with
        | some j => some (8 + j)
        | none => none
  else none

/-- `re.findall("(params.*?,|params.*?\)|params.*\?})", s)`: scan left to
right, taking non-overlapping matches.  The fuel (instantiated with the
text length, an upper bound on the scan steps) makes the recursion
structural; every match is at least seven characters long. -/
def findallParamsAux : Nat → List Char → List String
  | _, [] => []
  | 0, _ => []
  | fuel + 1, c :: cs =>
    match matchParamsAt (c :: cs) with
    | some len => (⟨(c :: cs).take len⟩ : String) :: findallParamsAux fuel ((c :: cs).drop len)
    | none => findallParamsAux fuel cs

/-- `re.findall` of the parameter-capturing pattern over a line. -/
def findallParams (s : String) : List String := findallParamsAux s.data.length s.data

/-- Whether `"params"` occurs somewhere with character `c` somewhere at or
after the following position (`re.search("params.*c", s)` for a literal
`c`, lines holding no newline). -/
def paramsThen (c : Char) : List Char → Bool
  | [] => false
  | d :: ds =>
    ("params".data.isPrefixOf (d :: ds) && ((d :: ds).drop 6).contains c) || paramsThen c ds

/-- The line filter `re.findall("params.*,|params.*\)", line)` is truthy. -/
def lineParamsFilter (s : String) : Bool :=
  paramsThen ',' s.data || paramsThen ')' s.data

/-- `re.search("params.", s)`: `"params"` followed by at least one
character. -/
def paramsDotAny : List Char → Bool
  | [] => false
  | d :: ds => ("params".data.isPrefixOf (d :: ds) && 6 ≤ ds.length) || paramsDotAny ds

/-- `get_params_from_module`, applied to the `readlines` of the file: the
`params`-prefixed lines split into (undefined, defined) by the presence of
`" = ''"`, each contributing its text before the first space. -/
def get_params_from_module (contents : List String) : List String × List String :=
  contents.foldl (fun acc line =>
    let line := pyRstrip line
    if pyStartsWith line "params" then
      if containsSub line " = ''" then (acc.1 ++ [partBefore line ' '], acc.2)
      else (acc.1, acc.2 ++ [partBefore line ' '])
    else acc) ([], [])

/-- `get_section_insert_idx`: index of the marker line plus the offset of
the first `stop` line at or after it; a missing marker or missing stop
line raises `ValueError` in the source. -/
def get_section_insert_idx (contents : List String) (sec stop : String) :
    Except Failure Nat :=
  match pyIndex contents sec with
  | none => .error (.crashed "ValueError: section is not in list")
  | some start =>
    match pyIndex (contents.drop start) stop with
    | none => .error (.crashed "ValueError: stop is not in list")
    | some k => .ok (start + k)

/-- `extract_wfs_from_script` on a module file's content: the name parsed
from every line starting with `workflow`. -/
def extract_wfs_from_script (content : String) : List String :=
  (pyReadlines content).foldl (fun acc line =>
    if pyStartsWith line "workflow" then
      acc ++ [pyStrip (partBefore (pyReplace line "workflow " "") '\x7b')]
    else acc) []

/-- Python `dict` assignment `m[k] = v` on an association list. -/
def dictInsert (m : List (String × String)) (k v : String) : List (String × String) :=
  if m.any (fun p => p.1 = k) then m.map (fun p => if p.1 = k then (k, v) else p)
  else m ++ [(k, v)]

/-- Python `m[k]` lookup (`none` models `KeyError`). -/
def dictGet (m : List (String × String)) (k : String) : Option String :=
  (m.find? (fun p => p.1 = k)).map (fun p => p.2)

/-- Python `k in m.keys()`. -/
def dictHas (m : List (String × String)) (k : String) : Bool :=
  m.any (fun p => p.1 = k)

/-- `get_wf_mod_map`: scan every module file of the project for `workflow`
headers, mapping each workflow name to its module.  The project's modules
are modelled as an association list from module name to the content of
`workflow/<module>/<module>.nf`, in the enumeration order of the glob. -/
def get_wf_mod_map (modules : List (String × String)) : List (String × String) :=
  modules.foldl (fun m p =>
    (extract_wfs_from_script p.2).foldl (fun m wf => dictInsert m wf p.1) m) []

/-- A module file's lines as `extract_step_slice_from_nfscript` reads
them: `readlines`, each line right-stripped. -/
def moduleLines (content : String) : List String := (pyReadlines content).map pyRstrip

/-- `extract_step_slice_from_nfscript`: with the module file's lines
right-stripped, the slice from the exact header line `workflow <step> {`
(else `process <step> {`) up to but excluding the first `}` line at or
after it.  A missing file or a missing header is a `sys.exit`; a missing
closing brace raises `ValueError`.  `path` is the label the source embeds
in the missing-step message. -/
def extract_step_slice_from_nfscript (path : String) (file? : Option String)
    (step : String) : Except Failure (List String) :=
  match file? with
  | none => .error (.exited 1 "Module not loaded within project. Exiting.")
  | some content =>
    let contents := moduleLines content
    match pyIndex contents ("workflow " ++ step ++ " \x7b") with
    | some s =>
      match pyIndex (contents.drop s) "\x7d" with
      | some k => .ok (pySlice contents s (s + k))
      | none => .error (.crashed "ValueError: no closing brace line")
    | none =>
      match pyIndex contents ("process " ++ step ++ " \x7b") with
      | some s =>
        match pyIndex (contents.drop s) "\x7d" with
        | some k => .ok (pySlice contents s (s + k))
        | none => .error (.crashed "ValueError: no closing brace line")
      | none => .error (.exited 1 ("Cannot find step " ++ step ++ " in module " ++ path))

/-- `get_workflow_str`: the call string `<name>(<require params>)\n` built
from the stripped slice; without a `// require:` line the call is
`<name>()\n`; a `// require:` line without a `take:` line raises
`ValueError`. -/
def get_workflow_str (wf_slice0 : List String) : Except Failure String :=
  let wf_slice := wf_slice0.map pyStrip
  match wf_slice with
  | [] => .error (.crashed "IndexError: list index out of range")
  | w0 :: _ =>
    let name := pyReplace (pyReplace w0 "workflow " "") " \x7b" ""
    match pyIndex wf_slice "// require:" with
    | some require_idx =>
      match pyIndex wf_slice "take:" with
      | none => .error (.crashed "ValueError: 'take:' is not in list")
      | some take_idx =>
        let reqs := (pySlice wf_slice (require_idx + 1) take_idx).map
          (fun x => pyStrip (pyReplace x "//  " ""))
        .ok (name ++ "(" ++ String.intercalate ", " reqs ++ ")\n")
    | none => .ok (name ++ "()\n")

/-- `get_process_str`: the call string for a process, from the raw
(right-stripped only) slice; a missing `// require:` line or a missing
blank line after it raises `ValueError`. -/
def get_process_str (proc_slice : List String) : Except Failure String :=
  match pyIndex proc_slice "// require:" with
  | none => .error (.crashed "ValueError: '// require:' is not in list")
  | some start_idx =>
    match pyIndex (proc_slice.drop start_idx) "" with
    | none => .error (.crashed "ValueError: '' is not in list")
    | some stop_idx =>
      match proc_slice with
      | [] => .error (.crashed "IndexError: list index out of range")
      | p0 :: _ =>
        let params := ((pySlice proc_slice (start_idx + 1) (start_idx + stop_idx)).filter
          (fun x => x ≠ "")).map (fun x => pyLstripSet x ['/', ' '])
        .ok (pyReplace (pyReplace p0 "process " "") " \x7b" "" ++ "(" ++
          String.intercalate ", " params ++ ")\n")

/-- `get_process_params`: the `params.`-mentioning lines of the require
block, comment syntax stripped. -/
def get_process_params (proc_slice : List String) : Except Failure (List String) :=
  match pyIndex proc_slice "// require:" with
  | none => .error (.crashed "ValueError: '// require:' is not in list")
  | some start_idx =>
    match pyIndex (proc_slice.drop start_idx) "" with
    | none => .error (.crashed "ValueError: '' is not in list")
    | some stop_idx =>
      .ok (((pySlice proc_slice (start_idx + 1) (start_idx + stop_idx)).filter
        (fun x => paramsDotAny x.data)).map (fun x => pyLstripSet x ['/', ' ']))

/-- The per-name cleanup applied by `extract_params_from_contents`: text
before the first `/`, then the source's chain of character and token
removals. -/
def paramClean (i : String) : String :=
  pyReplace (pyReplace (pyReplace (pyReplace (pyReplace (pyReplace (pyReplace (pyReplace
    (pyReplace (partBefore i '/') "," "") ")" "") "\x7d" "") "'" "") "\"" "") "/" "")
    "\\" "") " =~ " "") " != " ""

/-- `extract_params_from_contents` on a step slice.  The source's only
assignment to `require_params` is commented out, so it is always empty;
when no line contains `// require:` the names `start`/`end` are unbound
and the list-slice expression raises `NameError`; an inexact `// require:`
line or a missing `take:` line raises `ValueError`. -/
def extract_params_from_contents (contents0 : List String) (discard_requires : Bool) :
    Except Failure (List String) :=
  let contents := contents0.map pyStrip
  let require_params : List String := []
  if contents.any (fun i => containsSub i "// require:") then
    match pyIndex contents "// require:" with
    | none => .error (.crashed "ValueError: '// require:' is not in list")
    | some s =>
      match pyIndex contents "take:" with
      | none => .error (.crashed "ValueError: 'take:' is not in list")
      | some e =>
        let params := (contents.filter
          (fun i => lineParamsFilter i && i ≠ "params.")).map findallParams
        let params := params ++ [((pySlice contents (s + 1) e).filter
          (fun i => pyStartsWith i "//   params")).map
            (fun i => partBefore (pyReplace i "//   " "") ',')]
        let flat := params.flatten.map paramClean
        .ok (if discard_requires then flat.filter (fun i => !require_params.contains i)
             else flat ++ require_params)
  else .error (.crashed "NameError: name 'start' is not defined")

/-- The arguments of `add-step` used by `add_step` (argparse: `alias`
defaults to the empty string, which is falsy). -/
structure Args where
  project_id : String
  module : String
  step : String
  alias_ : String
deriving DecidableEq

/-- The project files `add_step` touches: the content of
`workflow/main.nf`, of `workflow/main.nf.bak`, and of each module's
`workflow/<module>/<module>.nf` (an association list in the glob's
enumeration order); `none` is a missing file. -/
structure ProjFS where
  main : Option String
  bak : Option String
  modules : List (String × String)
deriving DecidableEq

/-- The inclusion statement `add_step` generates for `main.nf`. -/
def inclusionStr (args : Args) : String :=
  if args.alias_ ≠ "" then
    "include \x7b " ++ args.step ++ " as " ++ args.alias_ ++ " \x7d from './" ++
      args.module ++ "/" ++ args.module ++ ".nf'\n"
  else
    "include \x7b " ++ args.step ++ " \x7d from './" ++ args.module ++ "/" ++
      args.module ++ ".nf'\n"

/-- The alias rewrite of the call string: keep the text after the first
`(`, prepend `<alias>(`, then textually replace every occurrence of the
step name by the alias in the whole result. -/
def aliasTransform (base step alias_ : String) : String :=
  pyReplace (alias_ ++ "(" ++ partAfter base '(') step alias_

/-- The call string for the step: `get_workflow_str` for a `workflow`
header, `get_process_str` for a `process` header (the source leaves the
empty string when neither word occurs), then the alias rewrite. -/
def genStepStr (slice : List String) (s0 : String) (args : Args) :
    Except Failure String :=
  let base :=
    if containsSub s0 "workflow" then get_workflow_str slice
    else if containsSub s0 "process" then get_process_str slice
    else .ok ""
  match base with
  | .error e => .error e
  | .ok b =>
    if args.alias_ ≠ "" then .ok (aliasTransform b args.step args.alias_) else .ok b

/-- One pass of `for step in discoverd_steps: ...` with
`discoverd_steps.remove(step)` inside the body: Python's iterator walks by
index while the list shrinks, so removing the current element skips the
next one.  State: (list, iterator index, `new_round_steps`,
`final_steps`).  The fuel (instantiated with the list length, an upper
bound on the iteration count) makes the recursion structural and is never
exhausted by the callers. -/
def forRemovePass (wfMap modules : List (String × String)) :
    Nat → List String → Nat → List String → List String →
    Except Failure (List String × List String × List String)
  | fuel, lst, i, newR, fin =>
    if i < lst.length then
      match fuel with
      | 0 => .error .hung
      | fuel + 1 =>
        let step := lst.getD i ""
        match dictGet wfMap step with
        | none => .error (.crashed ("KeyError: " ++ step))
        | some modKey =>
          match extract_step_slice_from_nfscript modKey (dictGet modules modKey) step with
          | .error e => .error e
          | .ok slice =>
            forRemovePass wfMap modules fuel (removeFirst step lst) (i + 1)
              (newR ++ (slice.map (fun l => partBefore l '(')).filter
                (fun nm => dictHas wfMap nm))
              (fin ++ [step])
    else .ok (lst, newR, fin)

/-- The `while discoverd_steps:` loop of `add_step`'s transitive parameter
discovery: one `forRemovePass` per round, then the leftover pending steps
are extended with the round's discoveries.  The source loop has no other
exit, so exhausting the fuel (one unit per round) models divergence. -/
def discover (wfMap modules : List (String × String)) :
    Nat → List String → List String → Except Failure (List String)
  | fuel, pending, fin =>
    if pending.isEmpty then .ok fin
    else
      match fuel with
      | 0 => .error .hung
      | fuel + 1 =>
        match forRemovePass wfMap modules pending.length pending 0 [] fin with
        | .error e => .error e
        | .ok (pending', newR, fin') => discover wfMap modules fuel (pending' ++ newR) fin'

/-- The `for step in final_steps:` loop: re-extract each step's slice and
collect its parameters, discarding requires exactly for the non-initial
steps. -/
def paramsOfSteps (wfMap modules : List (String × String)) (top : String) :
    List String → Except Failure (List String)
  | [] => .ok []
  | st :: rest =>
    match dictGet wfMap st with
    | none => .error (.crashed ("KeyError: " ++ st))
    | some modKey =>
      match extract_step_slice_from_nfscript modKey (dictGet modules modKey) st with
      | .error e => .error e
      | .ok slice =>
        match (if st = top then extract_params_from_contents slice false
               else extract_params_from_contents slice true) with
        | .error e => .error e
        | .ok ps =>
          match paramsOfSteps wfMap modules top rest with
          | .error e => .error e
          | .ok restPs => .ok (ps ++ restPs)

/-- The parameterization phase of `add_step`: for a `workflow` header, the
transitive discovery loop followed by per-step parameter extraction; for a
`process` header, `get_process_params`; otherwise the empty list. -/
def computeAllParams (fuel : Nat) (args : Args) (modules : List (String × String))
    (slice : List String) (s0 : String) : Except Failure (List String) :=
  if containsSub s0 "workflow" then
    let wfMap := get_wf_mod_map modules
    match discover wfMap modules fuel [args.step] [] with
    | .error e => .error e
    | .ok finalSteps => paramsOfSteps wfMap modules args.step finalSteps
  else if containsSub s0 "process" then get_process_params slice
  else .ok []

/-- The parameter block `add_step` inserts: the deduplicated parameter
names each rendered `<name> = ''`, joined by newlines, the step name
replaced by the alias across the whole joined block when an alias is
given, and a final newline. -/
def renderParamsBlock (ps : List String) (args : Args) : String :=
  if args.alias_ ≠ "" then
    pyReplace (String.intercalate "\n" ((pyDedup ps).map (fun x => x ++ " = ''")))
      args.step args.alias_ ++ "\n"
  else
    String.intercalate "\n" ((pyDedup ps).map (fun x => x ++ " = ''")) ++ "\n"

/-- The pretty-printed call block inserted into the `workflow { }` body:
the call string with `(` turned into `(\n  ` and `, ` into `,\n  `. -/
def callBlock (step_str : String) : String :=
  pyReplace (pyReplace step_str "(" "(\n  ") ", " ",\n  "

/-- The three insertions of `add_step` on the in-memory line list: the
inclusion after the `/*Inclusions*/` section, the parameter block after
the `/*Parameters*/` section, the call block before the closing brace of
`workflow { }`, each at the index `get_section_insert_idx` yields on the
list as rewritten so far. -/
def applyInsertions (main_contents : List String)
    (inclusion_str params_to_add call_str : String) : Except Failure (List String) :=
  match get_section_insert_idx main_contents "/*Inclusions*/\n" "\n" with
  | .error e => .error e
  | .ok inc_idx =>
    match get_section_insert_idx (pyInsert main_contents inc_idx inclusion_str)
        "/*Parameters*/\n" "\n" with
    | .error e => .error e
    | .ok params_idx =>
      match get_section_insert_idx (pyInsert (pyInsert main_contents inc_idx inclusion_str)
          params_idx params_to_add) "workflow \x7b\n" "\x7d\n" with
      | .error e => .error e
      | .ok wf_idx =>
        .ok (pyInsert (pyInsert (pyInsert main_contents inc_idx inclusion_str)
          params_idx params_to_add) wf_idx call_str)

/-- The tail of `add_step` once the call string and the parameter list are
in hand: the duplicate check (`sys.exit(1)` when the call string or the
inclusion string is already a line of `main.nf`), else the three
insertions. -/
def addStepFinish (args : Args) (main_contents : List String) (step_str : String)
    (all_step_params : List String) : Except Failure (List String) :=
  if step_str ∈ main_contents ∨ inclusionStr args ∈ main_contents then
    .error (.exited 1 ("Step " ++ partBefore step_str '(' ++
      " has already been added to Project " ++ args.project_id))
  else
    applyInsertions main_contents (inclusionStr args)
      (renderParamsBlock all_step_params args) (callBlock step_str)

/-- The body of `add_step` after `main.nf` has been read and backed up: the
value is the rewritten line list of `main.nf`, an error is the `sys.exit`
or exception that stops the run before the single final write. -/
def addStepCore (fuel : Nat) (args : Args) (m : String)
    (modules : List (String × String)) : Except Failure (List String) :=
  let main_contents := pyReadlines m
  let _main_params := get_params_from_module main_contents
  match extract_step_slice_from_nfscript (args.module ++ "/" ++ args.module ++ ".nf")
      (dictGet modules args.module) args.step with
  | .error e => .error e
  | .ok step_slice =>
    match step_slice with
    | [] => .error (.exited 1 ("ERROR: Step " ++ args.step ++
        " could not be found in module " ++ args.module ++ "."))
    | s0 :: _ =>
      match genStepStr step_slice s0 args with
      | .error e => .error e
      | .ok step_str =>
        match computeAllParams fuel args modules step_slice s0 with
        | .error e => .error e
        | .ok all_step_params =>
          addStepFinish args main_contents step_str all_step_params

/-- `add_step`: read `main.nf` (a missing file raises), back it up to
`main.nf.bak`, then run the pipeline; on success the rewritten line list
is joined and written back to `main.nf` in one final write, on failure
`main.nf` is left as it was. -/
def addStep (fuel : Nat) (args : Args) (fs : ProjFS) : Outcome × ProjFS :=
  match fs.main with
  | none => (.crashed "FileNotFoundError: main.nf", fs)
  | some m =>
    let fs1 : ProjFS := { fs with bak := some m }
    match addStepCore fuel args m fs.modules with
    | .ok cs => (.ok, { fs1 with main := some (String.join cs) })
    | .error e => (e.toOutcome, fs1)

/-- Python `os.path.basename`. -/
def basename (p : String) : String :=
  ⟨(p.data.reverse.takeWhile (fun c => c ≠ '/')).reverse⟩

/-- The recursive glob `glob(pjoin(root, '**', file), recursive=True)` over
a store of paths relative to the shared root: `**` matches zero or more
whole directory components, so a store path matches when it equals the
requested name or ends with `/` followed by it (the requested name holding
no glob metacharacters). -/
def globMatches (store : List String) (pat : String) : List String :=
  store.filter (fun p => p = pat || pyEndsWith p ("/" ++ pat))

/-- One pass of `for path in paths: if cond(path): paths.remove(path)`,
Python's index-walking iteration over the shrinking list (removing the
current element skips the next).  Fuel as in `forRemovePass`. -/
def pyRemovePass (cond : String → Bool) : Nat → List String → Nat → List String
  | fuel, lst, i =>
    if i < lst.length then
      match fuel with
      | 0 => lst
      | fuel + 1 =>
        let p := lst.getD i ""
        if cond p then pyRemovePass cond fuel (removeFirst p lst) (i + 1)
        else pyRemovePass cond fuel lst (i + 1)
    else lst

/-- `update_mounts_cfg` on the manifest file's content: read the first
line, split it on commas, keep each requested directory that no manifest
path already prefixes, drop manifest paths prefixed by a requested
directory (with Python's skip-on-remove iteration), and write the single
rejoined line back. -/
def update_mounts_cfg (content : String) (bind_dirs : List String) : String :=
  let line := pyStripChar (match pyReadlines content with | [] => "" | l :: _ => l) '\n'
  let paths := pySplitChar line ','
  let st := bind_dirs.foldl (fun (st : List String × List String) bind_dir =>
    let toAdd := if !st.1.any (fun path => pyStartsWith bind_dir path)
                 then st.2 ++ [bind_dir] else st.2
    (pyRemovePass (fun path => pyStartsWith path bind_dir) st.1.length st.1 0, toAdd))
    (paths, [])
  String.intercalate "," (st.1 ++ st.2) ++ "\n"

/-- The arguments of `load-reference` / `load-metadata` used by
`load_files` (argparse: `sub_dir` defaults to the empty string). -/
structure LoadArgs where
  file : String
  sub_dir : String
  mode : String
deriving DecidableEq

/-- The state `load_files` reads and writes: whether the project directory
exists, the shared root path and the store of file paths under it
(relative to the root; the model treats store paths as already real,
i.e. free of symbolic links), the project-relative destination files and
directories that exist, and the content of `workflow/mounts.config`. -/
structure LoadFS where
  projectExists : Bool
  root : String
  store : List String
  files : List String
  dirs : List String
  manifest : String
deriving DecidableEq

/-- The destination `pjoin(out_dir, sub_dir, basename(match))` relative to
the project's asset directory. -/
def destPath (args : LoadArgs) (g : String) : String :=
  (if args.sub_dir = "" then "" else args.sub_dir ++ "/") ++ basename g

/-- The `os.makedirs` step of `load_files`: create the requested sub
directory when it is named and absent. -/
def mkSubDir (args : LoadArgs) (fs : LoadFS) : LoadFS :=
  if args.sub_dir ≠ "" ∧ !fs.dirs.contains args.sub_dir
  then { fs with dirs := fs.dirs ++ [args.sub_dir] } else fs

/-- `load_files`: resolve the requested name by recursive glob under the
shared root; zero or several matches exit; one match is copied or
symlinked to the destination unless the destination already exists (which
exits); only the symlink mode updates the mount manifest. -/
def load_files (args : LoadArgs) (fs : LoadFS) : Outcome × LoadFS :=
  if !fs.projectExists then
    (.exited 1 "Cannot not find Project directory.", fs)
  else
    match globMatches fs.store args.file with
    | [] => (.exited 1 ("Cannot find " ++ args.file ++ " in the shared directory"), fs)
    | [g] =>
      let fs1 := mkSubDir args fs
      let dest := destPath args g
      if fs1.files.contains dest then
        (.exited 1 (dest ++ " already exists within the project. Ignoring load request."), fs1)
      else if args.mode = "symlink" then
        (.ok, { fs1 with files := fs1.files ++ [dest],
                         manifest := update_mounts_cfg fs1.manifest [fs.root ++ "/" ++ g] })
      else if args.mode = "copy" then
        (.ok, { fs1 with files := fs1.files ++ [dest] })
      else (.ok, fs1)
    | _ :: _ :: _ =>
      (.exited 1 ("File name " ++ args.file ++
        " is not specific enough. Please provide a directory prefix."), fs)

/-- `j` is where `get_section_insert_idx` is meant to land: at the first
`stop` line at or after the (first) `marker` line — the end of the
marker's section. -/
def sectionPos (L : List String) (marker stop : String) (j : Nat) : Prop :=
  ∃ s, L[s]? = some marker ∧ (∀ t, t < s → L[t]? ≠ some marker) ∧ s ≤ j ∧
    L[j]? = some stop ∧ ∀ t, s ≤ t → t < j → L[t]? ≠ some stop

/-- Every `sys.exit` of the modelled pipeline carries the status code 1
(Python exits with 1 both for `sys.exit(1)` and for `sys.exit(msg)`). -/
def Failure.exitOne : Failure → Prop
  | .exited c _ => c = 1
  | .crashed _ => True
  | .hung => True

/-! Concrete project states used to test the claims.  Main and module
files are written the way RAFT's own `init-project` template and module
convention lay them out: a `/*Parameters*/` section, a `/*Inclusions*/`
section and a `workflow { }` block in `main.nf`; `workflow <name> {`
headers with `// require:` / `take:` blocks in module files. -/

/-- A module whose two workflows call each other: a cycle in the step
call graph, with the calls at column 0 where `add_step`'s discovery loop
looks for them. -/
def cycleModule : String :=
  "workflow a \x7b\nb()\n\x7d\nworkflow b \x7b\na()\n\x7d\n"

/-- A minimal well-formed `main.nf`. -/
def plainMain : String :=
  "/*Inclusions*/\n\n/*Parameters*/\n\nworkflow \x7b\n\x7d\n"

def cycleFS : ProjFS := { main := some plainMain, bak := none, modules := [("m", cycleModule)] }

def cycleArgs : Args := { project_id := "p", module := "m", step := "a", alias_ := "" }

/-- The workflow-to-module map the cycle project produces. -/
def cycleMap : List (String × String) := get_wf_mod_map cycleFS.modules

/-- A module defining one workflow `foo` requiring `params.foo`. -/
def fooModule : String :=
  "workflow foo \x7b\n// require:\n//   params.foo\ntake:\nx\nmain:\n\x7d\n"

def fooArgs : Args := { project_id := "p", module := "mod", step := "foo", alias_ := "" }

/-- A `main.nf` that already declares `params.foo = ''` in its
`/*Parameters*/` section. -/
def c2Main : String :=
  "/*Inclusions*/\n\n/*Parameters*/\nparams.foo = ''\n\nworkflow \x7b\n\x7d\n"

def c2FS : ProjFS := { main := some c2Main, bak := none, modules := [("mod", fooModule)] }

/-- A `main.nf` whose `/*Parameters*/` section already holds a parameter
line between the marker and the blank line, as `init-project`'s template
does. -/
def c5Main : String :=
  "/*Parameters*/\nparams.project_dir = ''\n\n/*Inclusions*/\n\nworkflow \x7b\n\x7d\n"

def c5FS : ProjFS := { main := some c5Main, bak := none, modules := [("mod", fooModule)] }

/-- A `main.nf` already holding the inclusion line for `foo`, as it does
after a first successful `add-step` run. -/
def dupMain : String :=
  "/*Inclusions*/\ninclude \x7b foo \x7d from './mod/mod.nf'\n\n/*Parameters*/\nparams.foo = ''\n\nworkflow \x7b\nfoo(\n  params.foo)\n\x7d\n"

def dupFS : ProjFS := { main := some dupMain, bak := some "stale backup", modules := [("mod", fooModule)] }

/-- A module with a top workflow `foo` (requiring `params.foo$x` and
calling `sub`) and a sub-workflow `sub` whose body mentions
`params.foolish` — a sub-step parameter name that contains the top step's
name as a substring. -/
def c7Module : String :=
  "workflow foo \x7b\n// require:\n//   params.foo$x\ntake:\na\nmain:\nsub()\n\x7d\nworkflow sub \x7b\n// require:\n//   params.foolish\ntake:\nx\nmain:\ny\n\x7d\n"

def c7FS : ProjFS := { main := some plainMain, bak := none, modules := [("mod", c7Module)] }

def c7Args : Args := { project_id := "p", module := "mod", step := "foo", alias_ := "bar" }

def c7ArgsPlain : Args := { project_id := "p", module := "mod", step := "foo", alias_ := "" }

/-- A shared-root store with exactly one match for `hg38.fa`. -/
def c8FS : LoadFS :=
  { projectExists := true, root := "/shared/references",
    store := ["genomes/hg38.fa", "hg19.fa"], files := [], dirs := [],
    manifest := "/proj/p\n" }

def c8Args : LoadArgs := { file := "hg38.fa", sub_dir := "", mode := "copy" }

/-- The same store with the destination file already present in the
project. -/
def c9FS : LoadFS := { c8FS with files := ["hg38.fa"] }

def c9Args : LoadArgs := { file := "hg38.fa", sub_dir := "", mode := "symlink" }

/-- The lines of `main.nf` after adding `foo` to the `c5` project. -/
def c5ResultLines : List String := pyReadlines (((addStep 9 fooArgs c5FS).2.main).getD "")

theorem pyIndex_get {α : Type} [DecidableEq α] :
    ∀ {l : List α} {x : α} {j : Nat}, pyIndex l x = some j → l[j]? = some x := by
  intro l
  induction l with
  | nil => intro x j h; simp [pyIndex] at h
  | cons y ys ih =>
    intro x j h
    by_cases hy : y = x
    · simp only [pyIndex, if_pos hy, Option.some.injEq] at h
      subst h; simpa using hy
    · simp only [pyIndex, if_neg hy, Option.map_eq_some'] at h
      obtain ⟨j', hj', rfl⟩ := h
      simpa using ih hj'

theorem pyIndex_least {α : Type} [DecidableEq α] :
    ∀ {l : List α} {x : α} {j : Nat}, pyIndex l x = some j →
      ∀ t, t < j → l[t]? ≠ some x := by
  intro l
  induction l with
  | nil => intro x j h; simp [pyIndex] at h
  | cons y ys ih =>
    intro x j h t ht
    by_cases hy : y = x
    · simp only [pyIndex, if_pos hy, Option.some.injEq] at h
      omega
    · simp only [pyIndex, if_neg hy, Option.map_eq_some'] at h
      obtain ⟨j', hj', rfl⟩ := h
      cases t with
      | zero => simpa using hy
      | succ t' => simpa using ih hj' t' (by omega)

theorem pyIndex_of_mem {α : Type} [DecidableEq α] :
    ∀ {l : List α} {x : α}, x ∈ l → ∃ j, pyIndex l x = some j := by
  intro l
  induction l with
  | nil => intro x h; simp at h
  | cons y ys ih =>
    intro x h
    by_cases hy : y = x
    · exact ⟨0, by simp [pyIndex, hy]⟩
    · rcases List.mem_cons.mp h with h1 | hmem
      · exact absurd h1.symm hy
      · obtain ⟨j, hj⟩ := ih hmem
        exact ⟨j + 1, by simp [pyIndex, hy, hj]⟩

theorem pyIndex_isSome_of_mem {α : Type} [DecidableEq α] {l : List α} {x : α}
    (h : x ∈ l) : (pyIndex l x).isSome := by
  obtain ⟨j, hj⟩ := pyIndex_of_mem h
  simp [hj]

/-- `get_section_insert_idx` really points at the end of the section: the
first `stop` line at or after the first `marker` line. -/
theorem get_section_insert_idx_pos {L : List String} {marker stop : String} {j : Nat}
    (h : get_section_insert_idx L marker stop = .ok j) : sectionPos L marker stop j := by
  simp only [get_section_insert_idx] at h
  split at h
  · exact absurd h (by simp)
  next s hs =>
    split at h
    · exact absurd h (by simp)
    next k hk =>
      have hj : j = s + k := by cases h; rfl
      subst hj
      refine ⟨s, pyIndex_get hs, pyIndex_least hs, by omega, ?_, ?_⟩
      · have := pyIndex_get hk
        rwa [List.getElem?_drop] at this
      · intro t hst htj
        have := pyIndex_least hk (t - s) (by omega)
        rw [List.getElem?_drop] at this
        have harith : s + (t - s) = t := by omega
        rwa [harith] at this

theorem mem_pyInsert_self {α : Type} (l : List α) (i : Nat) (x : α) :
    x ∈ pyInsert l i x := by
  unfold pyInsert
  exact List.mem_append.mpr (Or.inr (List.mem_cons_self x _))

theorem mem_pyInsert_of_mem {α : Type} {l : List α} {a : α} (i : Nat) (x : α)
    (h : a ∈ l) : a ∈ pyInsert l i x := by
  unfold pyInsert
  rcases List.mem_append.mp ((List.take_append_drop i l).symm ▸ h) with h1 | h2
  · exact List.mem_append.mpr (Or.inl h1)
  · exact List.mem_append.mpr (Or.inr (List.mem_cons_of_mem x h2))

theorem toOutcome_ne_ok (e : Failure) : e.toOutcome ≠ .ok := by
  cases e <;> simp [Failure.toOutcome]

/-- A successful `applyInsertions` is exactly three `pyInsert`s, each at an
index `get_section_insert_idx` accepted on the list as rewritten so far. -/
theorem applyInsertions_ok {L : List String} {inc p c : String} {cs : List String}
    (h : applyInsertions L inc p c = .ok cs) :
    ∃ i1 i2 i3,
      get_section_insert_idx L "/*Inclusions*/\n" "\n" = .ok i1 ∧
      get_section_insert_idx (pyInsert L i1 inc) "/*Parameters*/\n" "\n" = .ok i2 ∧
      get_section_insert_idx (pyInsert (pyInsert L i1 inc) i2 p)
        "workflow \x7b\n" "\x7d\n" = .ok i3 ∧
      cs = pyInsert (pyInsert (pyInsert L i1 inc) i2 p) i3 c := by
  simp only [applyInsertions] at h
  split at h
  · exact absurd h (by simp)
  next i1 h1 =>
    split at h
    · exact absurd h (by simp)
    next i2 h2 =>
      split at h
      · exact absurd h (by simp)
      next i3 h3 =>
        exact ⟨i1, i2, i3, h1, h2, h3, by cases h; rfl⟩

/-- The three inserted strings are members of a successful rewrite. -/
theorem applyInsertions_ok_mem {L : List String} {inc p c : String} {cs : List String}
    (h : applyInsertions L inc p c = .ok cs) : inc ∈ cs ∧ p ∈ cs ∧ c ∈ cs := by
  obtain ⟨i1, i2, i3, _, _, _, rfl⟩ := applyInsertions_ok h
  refine ⟨?_, ?_, mem_pyInsert_self _ _ _⟩
  · exact mem_pyInsert_of_mem _ _ (mem_pyInsert_of_mem _ _ (mem_pyInsert_self _ _ _))
  · exact mem_pyInsert_of_mem _ _ (mem_pyInsert_self _ _ _)

/-- A successful `addStepFinish` passed the duplicate check and is the
three insertions. -/
theorem addStepFinish_ok {args : Args} {L : List String} {sstr : String}
    {ps : List String} {cs : List String}
    (h : addStepFinish args L sstr ps = .ok cs) :
    sstr ∉ L ∧ inclusionStr args ∉ L ∧
      applyInsertions L (inclusionStr args) (renderParamsBlock ps args)
        (callBlock sstr) = .ok cs := by
  simp only [addStepFinish] at h
  split at h
  · exact absurd h (by simp)
  next hdup =>
    push_neg at hdup
    exact ⟨hdup.1, hdup.2, h⟩

/-- Characterization of a successful `addStepCore` run: the step slice was
extracted, the call string generated, the parameters computed, the
duplicate check passed, and the result is the three insertions into the
lines of `main.nf`. -/
theorem addStepCore_ok {fuel : Nat} {args : Args} {m : String}
    {mods : List (String × String)} {cs : List String}
    (h : addStepCore fuel args m mods = .ok cs) :
    ∃ slice s0 rest sstr ps,
      extract_step_slice_from_nfscript (args.module ++ "/" ++ args.module ++ ".nf")
        (dictGet mods args.module) args.step = .ok slice ∧
      slice = s0 :: rest ∧
      genStepStr slice s0 args = .ok sstr ∧
      computeAllParams fuel args mods slice s0 = .ok ps ∧
      sstr ∉ pyReadlines m ∧ inclusionStr args ∉ pyReadlines m ∧
      applyInsertions (pyReadlines m) (inclusionStr args)
        (renderParamsBlock ps args) (callBlock sstr) = .ok cs := by
  simp only [addStepCore] at h
  split at h
  · exact absurd h (by simp)
  next slice hE =>
    split at h
    · exact absurd h (by simp)
    next s0 rest =>
      split at h
      · exact absurd h (by simp)
      next sstr hG =>
        split at h
        · exact absurd h (by simp)
        next ps hP =>
          obtain ⟨hns, hni, happ⟩ := addStepFinish_ok h
          exact ⟨s0 :: rest, s0, rest, sstr, ps, hE, rfl, hG, hP, hns, hni, happ⟩

theorem exitOne_trans {α : Type} {X e : Failure}
    (h : (Except.error X : Except Failure α) = .error e) (hX : X.exitOne) : e.exitOne := by
  cases h; exact hX

theorem extract_exitOne {p : String} {f : Option String} {st : String} {e : Failure}
    (h : extract_step_slice_from_nfscript p f st = .error e) : e.exitOne := by
  unfold extract_step_slice_from_nfscript at h
  cases f with
  | none => exact exitOne_trans h rfl
  | some content =>
    simp only at h
    cases hw : pyIndex (moduleLines content) ("workflow " ++ st ++ " \x7b") with
    | some s =>
      simp only [hw] at h
      cases hb : pyIndex ((moduleLines content).drop s) "\x7d" with
      | some k => simp only [hb] at h; exact absurd h (by simp)
      | none => simp only [hb] at h; exact exitOne_trans h trivial
    | none =>
      simp only [hw] at h
      cases hp : pyIndex (moduleLines content) ("process " ++ st ++ " \x7b") with
      | some s =>
        simp only [hp] at h
        cases hb : pyIndex ((moduleLines content).drop s) "\x7d" with
        | some k => simp only [hb] at h; exact absurd h (by simp)
        | none => simp only [hb] at h; exact exitOne_trans h trivial
      | none => simp only [hp] at h; exact exitOne_trans h rfl

theorem get_workflow_str_exitOne {sl : List String} {e : Failure}
    (h : get_workflow_str sl = .error e) : e.exitOne := by
  unfold get_workflow_str at h
  cases hsl : List.map pyStrip sl with
  | nil => simp only [hsl] at h; exact exitOne_trans h trivial
  | cons w0 rest =>
    simp only [hsl] at h
    cases hr : pyIndex (w0 :: rest) "// require:" with
    | some ri =>
      simp only [hr] at h
      cases ht : pyIndex (w0 :: rest) "take:" with
      | none => simp only [ht] at h; exact exitOne_trans h trivial
      | some ti => simp only [ht] at h; exact absurd h (by simp)
    | none => simp only [hr] at h; exact absurd h (by simp)

theorem get_process_str_exitOne {sl : List String} {e : Failure}
    (h : get_process_str sl = .error e) : e.exitOne := by
  unfold get_process_str at h
  cases hr : pyIndex sl "// require:" with
  | none => simp only [hr] at h; exact exitOne_trans h trivial
  | some si =>
    simp only [hr] at h
    cases hs : pyIndex (sl.drop si) "" with
    | none => simp only [hs] at h; exact exitOne_trans h trivial
    | some ti =>
      simp only [hs] at h
      cases sl with
      | nil => exact exitOne_trans h trivial
      | cons p0 rest => simp only at h; exact absurd h (by simp)

theorem get_process_params_exitOne {sl : List String} {e : Failure}
    (h : get_process_params sl = .error e) : e.exitOne := by
  unfold get_process_params at h
  cases hr : pyIndex sl "// require:" with
  | none => simp only [hr] at h; exact exitOne_trans h trivial
  | some si =>
    simp only [hr] at h
    cases hs : pyIndex (sl.drop si) "" with
    | none => simp only [hs] at h; exact exitOne_trans h trivial
    | some ti => simp only [hs] at h; exact absurd h (by simp)

theorem extract_params_exitOne {sl : List String} {b : Bool} {e : Failure}
    (h : extract_params_from_contents sl b = .error e) : e.exitOne := by
  unfold extract_params_from_contents at h
  by_cases hc : (List.map pyStrip sl).any (fun i => containsSub i "// require:") = true
  · simp only [hc, if_true] at h
    cases hr : pyIndex (List.map pyStrip sl) "// require:" with
    | none => simp only [hr] at h; exact exitOne_trans h trivial
    | some s =>
      simp only [hr] at h
      cases ht : pyIndex (List.map pyStrip sl) "take:" with
      | none => simp only [ht] at h; exact exitOne_trans h trivial
      | some t => simp only [ht] at h; exact absurd h (by simp)
  · simp only [hc, if_false, Bool.false_eq_true] at h
    exact exitOne_trans h trivial

theorem genStepStr_exitOne {sl : List String} {s0 : String} {args : Args} {e : Failure}
    (h : genStepStr sl s0 args = .error e) : e.exitOne := by
  unfold genStepStr at h
  by_cases hw : containsSub s0 "workflow" = true
  · simp only [hw, if_true] at h
    cases hg : get_workflow_str sl with
    | error e2 =>
      simp only [hg] at h
      exact exitOne_trans h (get_workflow_str_exitOne hg)
    | ok b => simp only [hg] at h; split at h <;> exact absurd h (by simp)
  · simp only [hw, Bool.false_eq_true, if_false] at h
    by_cases hp : containsSub s0 "process" = true
    · simp only [hp, if_true] at h
      cases hg : get_process_str sl with
      | error e2 =>
        simp only [hg] at h
        exact exitOne_trans h (get_process_str_exitOne hg)
      | ok b => simp only [hg] at h; split at h <;> exact absurd h (by simp)
    · simp only [hp, Bool.false_eq_true, if_false] at h
      split at h <;> exact absurd h (by simp)

theorem forRemovePass_exitOne {wfMap mods : List (String × String)} :
    ∀ {fuel : Nat} {lst : List String} {i : Nat} {newR fin : List String} {e : Failure},
      forRemovePass wfMap mods fuel lst i newR fin = .error e → e.exitOne := by
  intro fuel
  induction fuel with
  | zero =>
    intro lst i newR fin e h
    unfold forRemovePass at h
    split at h
    · cases h; trivial
    · exact absurd h (by simp)
  | succ n ih =>
    intro lst i newR fin e h
    unfold forRemovePass at h
    split at h
    · simp only at h
      cases hk : dictGet wfMap (lst.getD i "") with
      | none => simp only [hk] at h; exact exitOne_trans h trivial
      | some modKey =>
        simp only [hk] at h
        cases hx : extract_step_slice_from_nfscript modKey (dictGet mods modKey)
            (lst.getD i "") with
        | error e2 =>
          simp only [hx] at h
          exact exitOne_trans h (extract_exitOne hx)
        | ok slice => simp only [hx] at h; exact ih h
    · exact absurd h (by simp)

theorem discover_exitOne {wfMap mods : List (String × String)} :
    ∀ {fuel : Nat} {pending fin : List String} {e : Failure},
      discover wfMap mods fuel pending fin = .error e → e.exitOne := by
  intro fuel
  induction fuel with
  | zero =>
    intro pending fin e h
    unfold discover at h
    split at h
    · exact absurd h (by simp)
    · cases h; trivial
  | succ n ih =>
    intro pending fin e h
    unfold discover at h
    split at h
    · exact absurd h (by simp)
    · simp only at h
      cases hf : forRemovePass wfMap mods pending.length pending 0 [] fin with
      | error e2 =>
        simp only [hf] at h
        exact exitOne_trans h (forRemovePass_exitOne hf)
      | ok triple =>
        simp only [hf] at h
        exact ih h

theorem paramsOfSteps_exitOne {wfMap mods : List (String × String)} {top : String} :
    ∀ {steps : List String} {e : Failure},
      paramsOfSteps wfMap mods top steps = .error e → e.exitOne := by
  intro steps
  induction steps with
  | nil => intro e h; exact absurd h (by simp [paramsOfSteps])
  | cons st rest ih =>
    intro e h
    unfold paramsOfSteps at h
    cases hk : dictGet wfMap st with
    | none => simp only [hk] at h; exact exitOne_trans h trivial
    | some modKey =>
      simp only [hk] at h
      cases hx : extract_step_slice_from_nfscript modKey (dictGet mods modKey) st with
      | error e2 => simp only [hx] at h; exact exitOne_trans h (extract_exitOne hx)
      | ok slice =>
        simp only [hx] at h
        by_cases hst : st = top
        · simp only [hst, if_true] at h
          cases hp : extract_params_from_contents slice false with
          | error e2 =>
            simp only [hp] at h
            exact exitOne_trans h (extract_params_exitOne hp)
          | ok ps =>
            simp only [hp] at h
            cases hrest : paramsOfSteps wfMap mods top rest with
            | error e2 => simp only [hrest] at h; exact exitOne_trans h (ih hrest)
            | ok rps => simp only [hrest] at h; exact absurd h (by simp)
        · simp only [hst, if_false] at h
          cases hp : extract_params_from_contents slice true with
          | error e2 =>
            simp only [hp] at h
            exact exitOne_trans h (extract_params_exitOne hp)
          | ok ps =>
            simp only [hp] at h
            cases hrest : paramsOfSteps wfMap mods top rest with
            | error e2 => simp only [hrest] at h; exact exitOne_trans h (ih hrest)
            | ok rps => simp only [hrest] at h; exact absurd h (by simp)

theorem computeAllParams_exitOne {fuel : Nat} {args : Args}
    {mods : List (String × String)} {sl : List String} {s0 : String} {e : Failure}
    (h : computeAllParams fuel args mods sl s0 = .error e) : e.exitOne := by
  unfold computeAllParams at h
  by_cases hw : containsSub s0 "workflow" = true
  · simp only [hw, if_true] at h
    cases hd : discover (get_wf_mod_map mods) mods fuel [args.step] [] with
    | error e2 => simp only [hd] at h; exact exitOne_trans h (discover_exitOne hd)
    | ok fsteps => simp only [hd] at h; exact paramsOfSteps_exitOne h
  · simp only [hw, Bool.false_eq_true, if_false] at h
    by_cases hp : containsSub s0 "process" = true
    · simp only [hp, if_true] at h
      exact get_process_params_exitOne h
    · simp only [hp, Bool.false_eq_true, if_false] at h
      exact absurd h (by simp)

theorem get_section_insert_idx_exitOne {L : List String} {sec stop : String} {e : Failure}
    (h : get_section_insert_idx L sec stop = .error e) : e.exitOne := by
  unfold get_section_insert_idx at h
  cases hs : pyIndex L sec with
  | none => simp only [hs] at h; exact exitOne_trans h trivial
  | some s =>
    simp only [hs] at h
    cases hk : pyIndex (L.drop s) stop with
    | none => simp only [hk] at h; exact exitOne_trans h trivial
    | some k => simp only [hk] at h; exact absurd h (by simp)

theorem applyInsertions_exitOne {L : List String} {a b c : String} {e : Failure}
    (h : applyInsertions L a b c = .error e) : e.exitOne := by
  unfold applyInsertions at h
  split at h
  · cases h; exact get_section_insert_idx_exitOne (by assumption)
  · split at h
    · cases h; exact get_section_insert_idx_exitOne (by assumption)
    · split at h
      · cases h; exact get_section_insert_idx_exitOne (by assumption)
      · exact absurd h (by simp)

theorem addStepFinish_exitOne {args : Args} {L : List String} {sstr : String}
    {ps : List String} {e : Failure}
    (h : addStepFinish args L sstr ps = .error e) : e.exitOne := by
  unfold addStepFinish at h
  split at h
  · cases h; trivial
  · exact applyInsertions_exitOne h

theorem addStepCore_exitOne {fuel : Nat} {args : Args} {m : String}
    {mods : List (String × String)} {e : Failure}
    (h : addStepCore fuel args m mods = .error e) : e.exitOne := by
  unfold addStepCore at h
  split at h
  · cases h; exact extract_exitOne (by assumption)
  · split at h
    · cases h; trivial
    · split at h
      · cases h; exact genStepStr_exitOne (by assumption)
      · split at h
        · cases h; exact computeAllParams_exitOne (by assumption)
        · exact addStepFinish_exitOne h

theorem pyIndex_eq_none {α : Type} [DecidableEq α] :
    ∀ {l : List α} {x : α}, x ∉ l → pyIndex l x = none := by
  intro l
  induction l with
  | nil => intro x _; rfl
  | cons y ys ih =>
    intro x h
    have hy : y ≠ x := fun he => h (he ▸ List.mem_cons_self y ys)
    have hys : x ∉ ys := fun hm => h (List.mem_cons_of_mem y hm)
    simp [pyIndex, hy, ih hys]

/-- Reduction of `addStep` when reading `main.nf` fails. -/
theorem addStep_none {fuel : Nat} {args : Args} {bk : Option String}
    {mods : List (String × String)} :
    addStep fuel args ⟨none, bk, mods⟩ = (.crashed "FileNotFoundError: main.nf", ⟨none, bk, mods⟩) := rfl

/-- Reduction of `addStep` when the pipeline fails after the backup. -/
theorem addStep_eq_of_core_error {fuel : Nat} {args : Args} {bk : Option String}
    {mods : List (String × String)} {m : String} {e : Failure}
    (hc : addStepCore fuel args m mods = .error e) :
    addStep fuel args ⟨some m, bk, mods⟩ = (e.toOutcome, ⟨some m, some m, mods⟩) := by
  show (match addStepCore fuel args m mods with
        | .ok cs => (Outcome.ok, (⟨some (String.join cs), some m, mods⟩ : ProjFS))
        | .error e => (e.toOutcome, ⟨some m, some m, mods⟩)) =
      (e.toOutcome, (⟨some m, some m, mods⟩ : ProjFS))
  rw [hc]

/-- Reduction of `addStep` on a successful pipeline: the single final
write of the rewritten, joined line list. -/
theorem addStep_eq_of_core_ok {fuel : Nat} {args : Args} {bk : Option String}
    {mods : List (String × String)} {m : String} {cs : List String}
    (hc : addStepCore fuel args m mods = .ok cs) :
    addStep fuel args ⟨some m, bk, mods⟩ = (.ok, ⟨some (String.join cs), some m, mods⟩) := by
  show (match addStepCore fuel args m mods with
        | .ok cs => (Outcome.ok, (⟨some (String.join cs), some m, mods⟩ : ProjFS))
        | .error e => (e.toOutcome, ⟨some m, some m, mods⟩)) =
      (Outcome.ok, (⟨some (String.join cs), some m, mods⟩ : ProjFS))
  rw [hc]

/-- C4: on every failure path of `add-step` (missing module file, missing
step block, duplicate insertion, or any other failure) the main workflow
file is not partially mutated: a run that does not end in `ok` leaves
`main.nf` exactly as it was, and a run that ends in `ok` writes the fully
rewritten line list (holding the generated inclusion line) in one final
write. -/
theorem C4_no_partial_mutation (fuel : Nat) (args : Args) (fs : ProjFS) :
    ((addStep fuel args fs).1 ≠ Outcome.ok → (addStep fuel args fs).2.main = fs.main) ∧
    ((addStep fuel args fs).1 = Outcome.ok → ∃ cs,
      (addStep fuel args fs).2.main = some (String.join cs) ∧ inclusionStr args ∈ cs) := by
  obtain ⟨mn, bk, mods⟩ := fs
  cases mn with
  | none =>
    rw [addStep_none]
    exact ⟨fun _ => rfl, fun h => absurd h (by simp)⟩
  | some m =>
    cases hc : addStepCore fuel args m mods with
    | error e =>
      rw [addStep_eq_of_core_error hc]
      exact ⟨fun _ => rfl, fun h => absurd h (toOutcome_ne_ok e)⟩
    | ok cs =>
      rw [addStep_eq_of_core_ok hc]
      refine ⟨fun h => absurd rfl h, fun _ => ⟨cs, rfl, ?_⟩⟩
      obtain ⟨_, _, _, _, _, _, _, _, _, _, _, happ⟩ := addStepCore_ok hc
      exact (applyInsertions_ok_mem happ).1

/-- C4 witness: a run against a project with no module files fails and
leaves `main.nf` byte-identical. -/
theorem C4_witness :
    (addStep 1 fooArgs ⟨some plainMain, none, []⟩).1 ≠ Outcome.ok ∧
    (addStep 1 fooArgs ⟨some plainMain, none, []⟩).2.main = some plainMain :=
  ⟨by decide, (C4_no_partial_mutation 1 fooArgs ⟨some plainMain, none, []⟩).1 (by decide)⟩

/-- C10: every invocation of `add-step` on a project whose `main.nf`
exists overwrites `main.nf.bak` with the pre-invocation content of
`main.nf`, whatever the outcome — in particular a run that aborts with the
duplicate-step error has already replaced the previous backup. -/
theorem C10_backup_always_overwritten (fuel : Nat) (args : Args) (fs : ProjFS)
    (m : String) (hm : fs.main = some m) :
    (addStep fuel args fs).2.bak = some m := by
  obtain ⟨mn, bk, mods⟩ := fs
  cases hm
  cases hc : addStepCore fuel args m mods with
  | error e => rw [addStep_eq_of_core_error hc]
  | ok cs => rw [addStep_eq_of_core_ok hc]

/-- C10 witness: a duplicate-rejected run still replaces the stale
backup with the pre-invocation `main.nf`. -/
theorem C10_witness :
    (addStep 3 fooArgs dupFS).2.bak = some dupMain ∧
    dupFS.bak = some "stale backup" ∧
    (addStep 3 fooArgs dupFS).1 ≠ Outcome.ok :=
  ⟨C10_backup_always_overwritten 3 fooArgs dupFS dupMain rfl, rfl, by decide⟩

/-- C3: when the main workflow file already contains the generated
inclusion string (or the generated call string) as a line, an `add-step`
run that does not diverge ends with a non-zero process status and leaves
`main.nf` byte-identical; the duplicate is never silently merged. -/
theorem C3_duplicate_insertion_rejected (fuel : Nat) (args : Args) (fs : ProjFS)
    (m : String) (hm : fs.main = some m)
    (hdup : inclusionStr args ∈ pyReadlines m ∨
      ∃ slice s0 rest sstr,
        extract_step_slice_from_nfscript (args.module ++ "/" ++ args.module ++ ".nf")
          (dictGet fs.modules args.module) args.step = .ok slice ∧
        slice = s0 :: rest ∧ genStepStr slice s0 args = .ok sstr ∧
        sstr ∈ pyReadlines m)
    (hterm : (addStep fuel args fs).1 ≠ Outcome.hung) :
    (addStep fuel args fs).1.signalsFailure ∧ (addStep fuel args fs).2.main = some m := by
  obtain ⟨mn, bk, mods⟩ := fs
  cases hm
  cases hc : addStepCore fuel args m mods with
  | ok cs =>
    exfalso
    obtain ⟨slice, s0, rest, sstr, ps, hE, hsl, hG, hP, hns, hni, _⟩ := addStepCore_ok hc
    rcases hdup with hinc | ⟨slice2, s02, rest2, sstr2, hE2, hsl2, hG2, hmem⟩
    · exact hni hinc
    · rw [hE] at hE2
      cases hE2
      subst hsl
      cases hsl2
      rw [hG] at hG2
      cases hG2
      exact hns hmem
  | error e =>
    rw [addStep_eq_of_core_error hc] at hterm ⊢
    have h1 := addStepCore_exitOne hc
    refine ⟨?_, rfl⟩
    cases e with
    | exited c msg =>
      have : c = 1 := h1
      subst this
      simp [Failure.toOutcome, Outcome.signalsFailure]
    | crashed msg => trivial
    | hung => exact absurd rfl hterm

/-- C3 witness: re-running `add-step` for a step whose inclusion line is
already in `main.nf` signals failure and leaves `main.nf` unchanged. -/
theorem C3_witness :
    (addStep 3 fooArgs dupFS).1.signalsFailure ∧ (addStep 3 fooArgs dupFS).2.main = some dupMain :=
  C3_duplicate_insertion_rejected 3 fooArgs dupFS dupMain rfl
    (Or.inl (by decide)) (by decide)

/-- C5 counterexample: on a `main.nf` whose `/*Parameters*/` section
already holds a declaration line (as `init-project`'s template does), a
successful `add-step` run does NOT insert the parameter block immediately
after the literal marker line `/*Parameters*/`: the block lands at the end
of the section (line index 2), after the pre-existing declaration (line
index 1), refuting the claim's "immediately after" for the parameter
block. -/
theorem C5_counterexample :
    (addStep 9 fooArgs c5FS).1 = Outcome.ok ∧
    c5ResultLines[0]? = some "/*Parameters*/\n" ∧
    "params.foo = ''\n" ∈ c5ResultLines ∧
    c5ResultLines[1]? ≠ some "params.foo = ''\n" ∧
    c5ResultLines[2]? = some "params.foo = ''\n" := by decide

/-- C5 (amended): for every successful `add-step` insertion, a backup of
the pre-invocation `main.nf` is written to `main.nf.bak` first, and the
three strings are inserted in order — the inclusion statement at the
position of the first blank line at or after the literal marker line
`/*Inclusions*/` (the end of that section, not necessarily immediately
after the marker), the parameter block at the first blank line at or after
`/*Parameters*/`, and the call string immediately before the first line
`}` at or after the literal line `workflow {` — and the fully rewritten
line list is what `main.nf` holds afterwards. -/
theorem C5_amended_insertion_positions (fuel : Nat) (args : Args) (fs : ProjFS)
    (m : String) (hm : fs.main = some m)
    (hok : (addStep fuel args fs).1 = Outcome.ok) :
    (addStep fuel args fs).2.bak = some m ∧
    ∃ pstr cstr i1 i2 i3,
      sectionPos (pyReadlines m) "/*Inclusions*/\n" "\n" i1 ∧
      sectionPos (pyInsert (pyReadlines m) i1 (inclusionStr args)) "/*Parameters*/\n" "\n" i2 ∧
      sectionPos (pyInsert (pyInsert (pyReadlines m) i1 (inclusionStr args)) i2 pstr)
        "workflow \x7b\n" "\x7d\n" i3 ∧
      (addStep fuel args fs).2.main = some (String.join
        (pyInsert (pyInsert (pyInsert (pyReadlines m) i1 (inclusionStr args)) i2 pstr) i3 cstr)) := by
  obtain ⟨mn, bk, mods⟩ := fs
  cases hm
  cases hc : addStepCore fuel args m mods with
  | error e =>
    rw [addStep_eq_of_core_error hc] at hok
    exact absurd hok (toOutcome_ne_ok e)
  | ok cs =>
    rw [addStep_eq_of_core_ok hc]
    obtain ⟨slice, s0, rest, sstr, ps, hE, hsl, hG, hP, hns, hni, happ⟩ := addStepCore_ok hc
    obtain ⟨i1, i2, i3, h1, h2, h3, hcs⟩ := applyInsertions_ok happ
    exact ⟨rfl, renderParamsBlock ps args, callBlock sstr, i1, i2, i3,
      get_section_insert_idx_pos h1, get_section_insert_idx_pos h2,
      get_section_insert_idx_pos h3, by rw [hcs]⟩

/-- C5 witness: the amended statement applied to the `c5` project. -/
theorem C5_witness : (addStep 9 fooArgs c5FS).2.bak = some c5Main :=
  (C5_amended_insertion_positions 9 fooArgs c5FS c5Main rfl (by decide)).1

/-- C6: step extraction locates the line `workflow <name> {` (else
`process <name> {`) in the right-stripped module lines and takes the block
up to the first line that is exactly `}` at or after the header; a missing
module file and a missing header are fatal non-zero `sys.exit`s. -/
theorem C6_step_extraction (path step : String) (file? : Option String) :
    (file? = none → extract_step_slice_from_nfscript path file? step =
        .error (.exited 1 "Module not loaded within project. Exiting.")) ∧
    (∀ content, file? = some content →
      ((("workflow " ++ step ++ " \x7b") ∉ moduleLines content ∧
        ("process " ++ step ++ " \x7b") ∉ moduleLines content) →
        extract_step_slice_from_nfscript path file? step =
          .error (.exited 1 ("Cannot find step " ++ step ++ " in module " ++ path))) ∧
      (∀ s k,
        pyIndex (moduleLines content) ("workflow " ++ step ++ " \x7b") = some s →
        pyIndex ((moduleLines content).drop s) "\x7d" = some k →
        extract_step_slice_from_nfscript path file? step =
          .ok (pySlice (moduleLines content) s (s + k)) ∧
        (moduleLines content)[s]? = some ("workflow " ++ step ++ " \x7b") ∧
        (∀ t, t < s → (moduleLines content)[t]? ≠ some ("workflow " ++ step ++ " \x7b")) ∧
        (moduleLines content)[s + k]? = some "\x7d" ∧
        (∀ t, s ≤ t → t < s + k → (moduleLines content)[t]? ≠ some "\x7d")) ∧
      (∀ s k, ("workflow " ++ step ++ " \x7b") ∉ moduleLines content →
        pyIndex (moduleLines content) ("process " ++ step ++ " \x7b") = some s →
        pyIndex ((moduleLines content).drop s) "\x7d" = some k →
        extract_step_slice_from_nfscript path file? step =
          .ok (pySlice (moduleLines content) s (s + k)) ∧
        (moduleLines content)[s]? = some ("process " ++ step ++ " \x7b") ∧
        (∀ t, t < s → (moduleLines content)[t]? ≠ some ("process " ++ step ++ " \x7b")) ∧
        (moduleLines content)[s + k]? = some "\x7d" ∧
        (∀ t, s ≤ t → t < s + k → (moduleLines content)[t]? ≠ some "\x7d"))) := by
  refine ⟨fun hf => by rw [hf]; rfl, fun content hf => ?_⟩
  subst hf
  refine ⟨?_, ?_, ?_⟩
  · intro ⟨hw, hp⟩
    unfold extract_step_slice_from_nfscript
    simp only [pyIndex_eq_none hw, pyIndex_eq_none hp]
  · intro s k hs hk
    have hget := pyIndex_get hs
    have hleast := pyIndex_least hs
    have hbget := pyIndex_get hk
    rw [List.getElem?_drop] at hbget
    refine ⟨?_, hget, hleast, hbget, ?_⟩
    · unfold extract_step_slice_from_nfscript
      simp only [hs, hk]
    · intro t hst htk
      have := pyIndex_least hk (t - s) (by omega)
      rw [List.getElem?_drop] at this
      have harith : s + (t - s) = t := by omega
      rwa [harith] at this
  · intro s k hw hs hk
    have hget := pyIndex_get hs
    have hleast := pyIndex_least hs
    have hbget := pyIndex_get hk
    rw [List.getElem?_drop] at hbget
    refine ⟨?_, hget, hleast, hbget, ?_⟩
    · unfold extract_step_slice_from_nfscript
      simp only [pyIndex_eq_none hw, hs, hk]
    · intro t hst htk
      have := pyIndex_least hk (t - s) (by omega)
      rw [List.getElem?_drop] at this
      have harith : s + (t - s) = t := by omega
      rwa [harith] at this

/-- C6 witness: extraction of `workflow foo { ... }` from the concrete
module, and the fatal error on a missing module file. -/
theorem C6_witness :
    extract_step_slice_from_nfscript "mod/mod.nf" (some fooModule) "foo" =
      .ok (pySlice (moduleLines fooModule) 0 6) ∧
    (moduleLines fooModule)[0]? = some "workflow foo \x7b" ∧
    (moduleLines fooModule)[6]? = some "\x7d" ∧
    extract_step_slice_from_nfscript "mod/mod.nf" none "foo" =
      .error (.exited 1 "Module not loaded within project. Exiting.") := by
  have h := C6_step_extraction "mod/mod.nf" "foo" (some fooModule)
  have h2 := ((h.2 fooModule rfl).2.1 0 6 (by decide) (by decide))
  have h3 := (C6_step_extraction "mod/mod.nf" "foo" none).1 rfl
  exact ⟨h2.1, h2.2.1, h2.2.2.2.1, h3⟩

theorem cycle_round_a (fin : List String) :
    forRemovePass cycleMap cycleFS.modules 1 ["a"] 0 [] fin = .ok ([], ["b"], fin ++ ["a"]) := rfl

theorem cycle_round_b (fin : List String) :
    forRemovePass cycleMap cycleFS.modules 1 ["b"] 0 [] fin = .ok ([], ["a"], fin ++ ["b"]) := rfl

/-- On the two-cycle `a ↔ b` the discovery loop's pending set alternates
between `["a"]` and `["b"]` forever: no fuel completes it. -/
theorem discover_cycle_hung :
    ∀ (fuel : Nat) (fin : List String),
      discover cycleMap cycleFS.modules fuel ["a"] fin = .error .hung ∧
      discover cycleMap cycleFS.modules fuel ["b"] fin = .error .hung := by
  intro fuel
  induction fuel with
  | zero => intro fin; exact ⟨rfl, rfl⟩
  | succ n ih =>
    intro fin
    constructor
    · have h1 : discover cycleMap cycleFS.modules (n + 1) ["a"] fin =
          discover cycleMap cycleFS.modules n ["b"] (fin ++ ["a"]) := rfl
      rw [h1]
      exact (ih (fin ++ ["a"])).2
    · have h2 : discover cycleMap cycleFS.modules (n + 1) ["b"] fin =
          discover cycleMap cycleFS.modules n ["a"] (fin ++ ["b"]) := rfl
      rw [h2]
      exact (ih (fin ++ ["b"])).1

/-- C1: with a workflow-kind step call graph containing a cycle reachable
from the target step (here `a` calls `b` and `b` calls `a`), the
transitive parameter discovery loop of `add_step` never terminates —
whatever fuel the embedded loop is given, the run is still pending — so
the claim that the traversal terminates and visits every reachable step
exactly once fails on the code: visited steps are re-discovered and
re-enqueued because the round's call-outs are never filtered against the
processed list. -/
theorem C1_add_step_diverges_on_cycle (fuel : Nat) :
    (addStep fuel cycleArgs cycleFS).1 = Outcome.hung := by
  have hd := (discover_cycle_hung fuel []).1
  have hcore : addStepCore fuel cycleArgs plainMain [("m", cycleModule)] = .error .hung := by
    have heq : addStepCore fuel cycleArgs plainMain [("m", cycleModule)] =
        (match (match discover cycleMap cycleFS.modules fuel ["a"] [] with
                | .error e => (.error e : Except Failure (List String))
                | .ok fsteps => paramsOfSteps cycleMap cycleFS.modules "a" fsteps) with
         | .error e => (.error e : Except Failure (List String))
         | .ok ps => addStepFinish cycleArgs (pyReadlines plainMain) "a()\n" ps) := rfl
    rw [heq, hd]
  have hfs : cycleFS = ⟨some plainMain, none, [("m", cycleModule)]⟩ := rfl
  rw [hfs, addStep_eq_of_core_error hcore]
  rfl

/-- C2: the parameter block is deduplicated, but a parameter that is
already declared in the existing `main.nf` is NOT skipped: on a project
whose `main.nf` already holds the line `params.foo = ''` once, adding a
step that requires `params.foo` succeeds and the written file declares
`params.foo = ''` twice.  (`add_step` loads the main file's parameters
into `main_params` — the source comments say "to check against" — but
never uses them.) -/
theorem C2_already_declared_param_redeclared :
    (addStep 9 fooArgs c2FS).1 = Outcome.ok ∧
    (pyReadlines c2Main).count "params.foo = ''\n" = 1 ∧
    ((addStep 9 fooArgs c2FS).2.main.map
      (fun s => (pyReadlines s).count "params.foo = ''\n")) = some 2 := by decide

theorem string_ext {a b : String} (h : a.data = b.data) : a = b := by
  cases a; cases b; exact congrArg String.mk h

theorem data_append (a b : String) : (a ++ b).data = a.data ++ b.data := by
  cases a; cases b; rfl

/-- Replacement is the identity when the pattern does not occur. -/
theorem listReplaceAux_id {pat rep : List Char} :
    ∀ (fuel : Nat) (s : List Char), subOccurs pat s = false →
      listReplaceAux pat rep fuel s = s := by
  intro fuel
  induction fuel with
  | zero => intro s _; cases s <;> rfl
  | succ n ih =>
    intro s h
    cases s with
    | nil => rfl
    | cons c cs =>
      have hor := Bool.or_eq_false_iff.mp (by simpa [subOccurs] using h)
      unfold listReplaceAux
      rw [if_neg (fun hcon => by simp [hor.1] at hcon)]
      rw [ih cs hor.2]

/-- Python `s.replace(pat, rep)` is the identity when `pat` does not occur
in `s`. -/
theorem pyReplace_id {s pat rep : String} (h : containsSub s pat = false) :
    pyReplace s pat rep = s := by
  unfold pyReplace
  rw [listReplaceAux_id _ _ h]

theorem inclusionStr_alias_eq {pid mod step a : String} (ha : a ≠ "") :
    inclusionStr ⟨pid, mod, step, a⟩ =
      "include \x7b " ++ step ++ " as " ++ a ++ " \x7d from './" ++ mod ++ "/" ++
        mod ++ ".nf'\n" := by
  unfold inclusionStr
  rw [if_pos ha]

theorem inclusionStr_alias_ne {pid mod step a1 a2 : String}
    (h1 : a1 ≠ "") (h2 : a2 ≠ "") (hne : a1 ≠ a2) :
    inclusionStr ⟨pid, mod, step, a1⟩ ≠ inclusionStr ⟨pid, mod, step, a2⟩ := by
  intro he
  apply hne
  rw [inclusionStr_alias_eq h1, inclusionStr_alias_eq h2] at he
  have hd := congrArg String.data he
  simp only [data_append, List.append_assoc] at hd
  have hd1 := List.append_cancel_left hd
  have hd2 := List.append_cancel_left hd1
  have hd3 := List.append_cancel_left hd2
  exact string_ext (List.append_cancel_right hd3)

theorem aliasTransform_ne {base step a1 a2 : String}
    (h1 : containsSub (a1 ++ "(" ++ partAfter base '(') step = false)
    (h2 : containsSub (a2 ++ "(" ++ partAfter base '(') step = false)
    (hne : a1 ≠ a2) :
    aliasTransform base step a1 ≠ aliasTransform base step a2 := by
  unfold aliasTransform
  rw [pyReplace_id h1, pyReplace_id h2]
  intro he
  apply hne
  have hd := congrArg String.data he
  simp only [data_append, List.append_assoc] at hd
  exact string_ext (List.append_cancel_right hd)

/-- C7 (amended): an aliased `add-step` generates the inclusion statement
`include { <step> as <alias> } from './<module>/<module>.nf'`; the step
name is textually replaced by the alias as a raw substring throughout the
generated call string and throughout the entire joined parameter block —
sub-steps' parameter names included, which is why the original claim's
"only ... the top-level step" fails; two distinct aliases give two
distinct inclusion statements, and two distinct call strings whenever the
step name does not occur in the alias-call text (when no parameter
mentions the step name the two parameter blocks coincide). -/
theorem C7_amended_alias_semantics (pid mod step a1 a2 base : String) (ps : List String)
    (ha1 : a1 ≠ "") (ha2 : a2 ≠ "") (hne : a1 ≠ a2)
    (h1 : containsSub (a1 ++ "(" ++ partAfter base '(') step = false)
    (h2 : containsSub (a2 ++ "(" ++ partAfter base '(') step = false) :
    inclusionStr ⟨pid, mod, step, a1⟩ =
      "include \x7b " ++ step ++ " as " ++ a1 ++ " \x7d from './" ++ mod ++ "/" ++
        mod ++ ".nf'\n" ∧
    inclusionStr ⟨pid, mod, step, a1⟩ ≠ inclusionStr ⟨pid, mod, step, a2⟩ ∧
    aliasTransform base step a1 ≠ aliasTransform base step a2 ∧
    renderParamsBlock ps ⟨pid, mod, step, a1⟩ =
      pyReplace (String.intercalate "\n" ((pyDedup ps).map (fun x => x ++ " = ''")))
        step a1 ++ "\n" := by
  refine ⟨inclusionStr_alias_eq ha1, inclusionStr_alias_ne ha1 ha2 hne,
    aliasTransform_ne h1 h2 hne, ?_⟩
  unfold renderParamsBlock
  rw [if_pos ha1]

/-- C7 witness: the amended statement at the concrete module. -/
theorem C7_witness :
    inclusionStr ⟨"p", "mod", "foo", "bar"⟩ ≠ inclusionStr ⟨"p", "mod", "foo", "baz"⟩ ∧
    aliasTransform "foo(params.x)\n" "foo" "bar" ≠ aliasTransform "foo(params.x)\n" "foo" "baz" :=
  ⟨(C7_amended_alias_semantics "p" "mod" "foo" "bar" "baz" "foo(params.x)\n" []
      (by decide) (by decide) (by decide) (by decide) (by decide)).2.1,
   (C7_amended_alias_semantics "p" "mod" "foo" "bar" "baz" "foo(params.x)\n" []
      (by decide) (by decide) (by decide) (by decide) (by decide)).2.2.1⟩

/-- C7 counterexample: aliasing `foo` as `bar` rewrites the sub-step
`sub`'s parameter `params.foolish` into `params.barlish` in the declared
parameter block — the textual replacement is NOT limited to the top-level
step's parameter names.  The unaliased run on the same project declares
`params.foolish = ''`, showing the parameter belongs to the sub-step. -/
theorem C7_counterexample :
    (addStep 9 c7Args c7FS).1 = Outcome.ok ∧
    ((addStep 9 c7Args c7FS).2.main.map
      (fun s => (pyReadlines s).contains "params.barlish = ''\n")) = some true ∧
    ((addStep 9 c7Args c7FS).2.main.map
      (fun s => (pyReadlines s).contains "params.foolish = ''\n")) = some false ∧
    (addStep 9 c7ArgsPlain c7FS).1 = Outcome.ok ∧
    ((addStep 9 c7ArgsPlain c7FS).2.main.map
      (fun s => (pyReadlines s).contains "params.foolish = ''\n")) = some true := by decide

/-- C8 (amended): with the project directory present — zero glob matches
and two-or-more glob matches both exit with a non-zero fatal error leaving
the state untouched; exactly one match with a fresh destination creates
the destination file, and the mount manifest is updated (through
`update_mounts_cfg`, which may also add nothing when an existing manifest
path is a prefix of the new one) in symlink mode only — copy mode leaves
the manifest untouched. -/
theorem C8_amended_exactly_one_match (args : LoadArgs) (fs : LoadFS)
    (hp : fs.projectExists = true) :
    (globMatches fs.store args.file = [] →
      ∃ msg, load_files args fs = (.exited 1 msg, fs)) ∧
    (∀ g1 g2 gs, globMatches fs.store args.file = g1 :: g2 :: gs →
      ∃ msg, load_files args fs = (.exited 1 msg, fs)) ∧
    (∀ g, globMatches fs.store args.file = [g] →
      (mkSubDir args fs).files.contains (destPath args g) = false →
      (args.mode = "copy" →
        (load_files args fs).1 = Outcome.ok ∧
        (load_files args fs).2.files = fs.files ++ [destPath args g] ∧
        (load_files args fs).2.manifest = fs.manifest) ∧
      (args.mode = "symlink" →
        (load_files args fs).1 = Outcome.ok ∧
        (load_files args fs).2.files = fs.files ++ [destPath args g] ∧
        (load_files args fs).2.manifest =
          update_mounts_cfg fs.manifest [fs.root ++ "/" ++ g])) := by
  have hproj : (!fs.projectExists) = false := by rw [hp]; rfl
  refine ⟨?_, ?_, ?_⟩
  · intro hg
    exact ⟨_, by unfold load_files; rw [hproj, hg]; rfl⟩
  · intro g1 g2 gs hg
    exact ⟨_, by unfold load_files; rw [hproj, hg]; rfl⟩
  · intro g hg hfree
    have hmf : (mkSubDir args fs).manifest = fs.manifest := by
      unfold mkSubDir; split <;> rfl
    have hff : (mkSubDir args fs).files = fs.files := by
      unfold mkSubDir; split <;> rfl
    have hrt : (mkSubDir args fs).root = fs.root := by
      unfold mkSubDir; split <;> rfl
    constructor
    · intro hmode
      have hcopy : load_files args fs =
          (Outcome.ok, { mkSubDir args fs with
            files := (mkSubDir args fs).files ++ [destPath args g] }) := by
        unfold load_files
        rw [hproj, hg]
        simp only [hmode, hfree]
        rfl
      rw [hcopy]
      exact ⟨rfl, by rw [hff], by rw [hmf]⟩
    · intro hmode
      have hsym : load_files args fs =
          (Outcome.ok, { mkSubDir args fs with
            files := (mkSubDir args fs).files ++ [destPath args g],
            manifest := update_mounts_cfg (mkSubDir args fs).manifest
              [fs.root ++ "/" ++ g] }) := by
        unfold load_files
        rw [hproj, hg]
        simp only [hmode, hfree]
        rfl
      rw [hsym]
      exact ⟨rfl, by rw [hff], by rw [hmf]⟩

/-- C8 witness: the amended statement at the concrete store. -/
theorem C8_witness :
    (load_files c8Args c8FS).1 = Outcome.ok ∧
    (load_files c8Args c8FS).2.files = c8FS.files ++ [destPath c8Args "genomes/hg38.fa"] ∧
    (load_files c8Args c8FS).2.manifest = c8FS.manifest :=
  ((C8_amended_exactly_one_match c8Args c8FS rfl).2.2 "genomes/hg38.fa"
    (by decide) (by decide)).1 rfl

/-- C8 counterexample: a copy-mode load with exactly one match succeeds
and creates the destination, but the mount-binding manifest gains no path
at all — refuting the claim that every successful asset load adds exactly
one path to the manifest. -/
theorem C8_counterexample :
    (load_files c8Args c8FS).1 = Outcome.ok ∧
    (load_files c8Args c8FS).2.files.contains "hg38.fa" = true ∧
    (load_files c8Args c8FS).2.manifest = c8FS.manifest := by decide

/-- C9 (amended): a load request whose destination file already exists
leaves the destination files and the manifest untouched — the request is a
no-op on the project — but the process terminates with a NON-ZERO status
(`sys.exit` with the "Ignoring load request" message exits with code 1),
not the claimed success status. -/
theorem C9_existing_destination (args : LoadArgs) (fs : LoadFS) (g : String)
    (hp : fs.projectExists = true)
    (hg : globMatches fs.store args.file = [g])
    (hd : (mkSubDir args fs).files.contains (destPath args g) = true) :
    (load_files args fs).1 = .exited 1
      (destPath args g ++ " already exists within the project. Ignoring load request.") ∧
    (load_files args fs).1.signalsFailure ∧
    (load_files args fs).2.files = fs.files ∧
    (load_files args fs).2.manifest = fs.manifest := by
  have hproj : (!fs.projectExists) = false := by rw [hp]; rfl
  have hff : (mkSubDir args fs).files = fs.files := by
    unfold mkSubDir; split <;> rfl
  have hmf : (mkSubDir args fs).manifest = fs.manifest := by
    unfold mkSubDir; split <;> rfl
  have hrun : load_files args fs =
      (.exited 1 (destPath args g ++ " already exists within the project. Ignoring load request."),
        mkSubDir args fs) := by
    unfold load_files
    rw [hproj, hg]
    simp only [hd]
    rfl
  rw [hrun]
  exact ⟨rfl, Nat.one_ne_zero, hff, hmf⟩

/-- C9 witness: the amended statement at the concrete store. -/
theorem C9_witness :
    (load_files c9Args c9FS).1.signalsFailure ∧
    (load_files c9Args c9FS).2.files = c9FS.files :=
  ⟨(C9_existing_destination c9Args c9FS "genomes/hg38.fa" rfl (by decide) (by decide)).2.1,
   (C9_existing_destination c9Args c9FS "genomes/hg38.fa" rfl (by decide) (by decide)).2.2.1⟩

/-- C9 counterexample: the already-exists path is reported with the
source's "Ignoring load request" message, yet the process exits with
status 1 — it DOES signal failure, refuting the claim that the repeat load
is not an error. -/
theorem C9_counterexample :
    (load_files c9Args c9FS).1 =
      .exited 1 "hg38.fa already exists within the project. Ignoring load request." ∧
    (load_files c9Args c9FS).1 ≠ Outcome.ok := by decide

end Raft



